import Mathlib

/-!
Verification of the prebid-server auction core against its specification.

The Go sources are shallowly embedded: each Go function the claims touch is
translated into an executable Lean definition, keeping the source's names,
field names and control flow.  Machine floats carrying bid prices are
modelled as rationals; Go maps with explicit iteration order are modelled as
association lists; fallible operations return `Option`/`Except`/`Sum`.
-/

namespace Prebid

/-! ## Association-list helpers (Go `map` reads and writes) -/

/-- Lookup in an association list keyed by strings (Go `m[k]` read). -/
def lookupA {α : Type} : List (String × α) → String → Option α
  | [], _ => none
  | (k, v) :: rest, key => if k = key then some v else lookupA rest key

/-- Write to an association list (Go `m[k] = v`): overwrite if present,
append otherwise. -/
def setAssoc {α : Type} (key : String) (v : α) : List (String × α) → List (String × α)
  | [] => [(key, v)]
  | (k, w) :: rest => if k = key then (key, v) :: rest else (k, w) :: setAssoc key v rest

/-- Delete from an association list (Go `delete(m, k)`). -/
def eraseAssoc {α : Type} (key : String) : List (String × α) → List (String × α)
  | [] => []
  | (k, w) :: rest => if k = key then rest else (k, w) :: eraseAssoc key rest

theorem lookupA_setAssoc_self {α : Type} (key : String) (v : α) (l : List (String × α)) :
    lookupA (setAssoc key v l) key = some v := by
  induction l with
  | nil => simp [setAssoc, lookupA]
  | cons hd tl ih =>
    obtain ⟨k, w⟩ := hd
    by_cases h : k = key
    · simp [setAssoc, h, lookupA]
    · simp [setAssoc, h, lookupA, ih]

theorem lookupA_setAssoc_ne {α : Type} {key key' : String} (v : α) (l : List (String × α))
    (h : key ≠ key') : lookupA (setAssoc key v l) key' = lookupA l key' := by
  induction l with
  | nil => simp [setAssoc, lookupA, h]
  | cons hd tl ih =>
    obtain ⟨k, w⟩ := hd
    by_cases hk : k = key
    · subst hk
      simp [setAssoc, lookupA, h, ih]
    · simp [setAssoc, hk, lookupA, ih]

/-! ## Shared data model

`openrtb.Bid` is embedded with the fields the auction core reads.  Prices
(float64 in Go) are modelled as rationals. -/

/-- The fields of `openrtb.Bid` that the core reads. -/
structure OBid where
  ID : String
  ImpID : String
  Price : ℚ
  CrID : String
  Cat : List String
  AdM : String
  NURL : String
  deriving DecidableEq, Repr

/-- `openrtb_ext.ExtBidPrebidVideo`. -/
structure ExtBidPrebidVideo where
  Duration : Int
  PrimaryCategory : String
  deriving DecidableEq, Repr

/-! ## C8 — auction-context deadline shortening (`exchange.makeAuctionContext`)

A `context.Context` is modelled by its optional deadline (an integer
timestamp). -/

/-- Embeds `exchange.makeAuctionContext` (exchange.go:161-170): the returned
auction context's deadline.  When `needsCache` is set and the inbound context
carries a deadline, the deadline is moved back by `cacheTime`; otherwise the
context is returned unchanged. -/
def makeAuctionContext (deadline : Option ℤ) (cacheTime : ℤ) (needsCache : Bool) : Option ℤ :=
  if needsCache then
    match deadline with
    | some d => some (d - cacheTime)
    | none => deadline
  else deadline

/-- Embeds the context plumbing of `exchange.HoldAuction` (exchange.go:134-137
and 157-158): the bidder-dispatch context is `makeAuctionContext ctx
shouldCacheBids`, and the context later passed to `buildBidResponse` is the
original one.  Returns `(auctionCtx deadline, response-building ctx deadline)`. -/
def holdAuctionContexts (deadline : Option ℤ) (cacheTime : ℤ)
    (shouldCacheBids shouldCacheVAST : Bool) : Option ℤ × Option ℤ :=
  (makeAuctionContext deadline cacheTime shouldCacheBids, deadline)

/-- The proposition asserted by the spec for C8: whenever caching of either
kind is requested and a deadline is present, the auction context's deadline is
the request deadline minus the cache time, and the response is built under the
original context. -/
def claimC8 (deadline : Option ℤ) (cacheTime : ℤ) (bids vast : Bool) : Prop :=
  ∀ d : ℤ, deadline = some d → (bids = true ∨ vast = true) →
    holdAuctionContexts deadline cacheTime bids vast = (some (d - cacheTime), some d)

/-! ## Currency model

`golang.org/x/text/currency.ParseISO` and `currencies.Rates.GetRate`. -/

/-- ISO 4217 codes present in the modelled `x/text/currency` table. -/
def isoCodes : List String :=
  ["USD", "EUR", "GBP", "JPY", "AUD", "BRL", "CAD", "CHF", "CNY", "DKK",
   "INR", "KRW", "MXN", "NOK", "NZD", "PLN", "RUB", "SEK", "BZD"]

/-- ASCII upper-casing of a string (Go `strings.ToUpper` restricted to the
ASCII currency codes it is applied to here). -/
def toUpperStr (s : String) : String := String.mk (s.data.map Char.toUpper)

/-- Models the library function `golang.org/x/text/currency.ParseISO` (a
vendored dependency, not part of this repository): a string parses iff it is
exactly three alphabetic characters and, after normalising case to upper
case, denotes a known ISO 4217 currency; the parsed unit renders as the
upper-cased code. -/
def parseISO (s : String) : Option String :=
  if s.length = 3 ∧ s.data.all Char.isAlpha then
    let u := toUpperStr s
    if isoCodes.contains u then some u else none
  else none

/-- The error values `Rates.GetRate` can produce. -/
inductive ConvError where
  | parseFailed (s : String)
  | ratesNil
  | notFound (cFrom cTo : String)
  deriving DecidableEq, Repr

/-- The `Rates.Conversions` two-level map `from-ISO → to-ISO → rate`. -/
abbrev RatesMap := List (String × List (String × ℚ))

/-- Embeds `currencies.Rates.GetRate` (router.go:267-288): parse both codes,
shortcut identical units to rate 1, then look the pair up in the conversions
table (`none` models a nil `Conversions` map). -/
def Rates_GetRate (conversions : Option RatesMap) (cFrom cTo : String) : Except ConvError ℚ :=
  match parseISO cFrom with
  | none => .error (.parseFailed cFrom)
  | some fromUnit =>
    match parseISO cTo with
    | none => .error (.parseFailed cTo)
    | some toUnit =>
      if fromUnit = toUnit then .ok 1
      else
        match conversions with
        | some conv =>
          match (lookupA conv fromUnit).bind (fun inner => lookupA inner toUnit) with
          | some rate => .ok rate
          | none => .error (.notFound fromUnit toUnit)
        | none => .error .ratesNil

/-- The `currencies.Conversions` interface: `GetRate(from, to)`. -/
abbrev Conversions := String → String → Except ConvError ℚ

/-! ## Bidder-runner model (`exchange/bidder.go`) -/

/-- The error kinds of `errortypes` that the bidder runner produces or
forwards. -/
inductive BidderErr where
  | failedToRequestBids
  | timeout
  | badServerResponse (status : Int)
  | conversion (e : ConvError)
  | makeBidsFailed (msg : String)
  | other (msg : String)
  deriving DecidableEq, Repr

/-- The fields of `adapters.RequestData` relevant here (HTTP payloads are
opaque to the claims). -/
structure RequestData where
  Method : String
  Uri : String
  deriving DecidableEq, Repr

/-- `adapters.TypedBid`: a bid plus media-type tag and optional video
metadata.  The Go `Bid` field is a pointer, hence `Option`. -/
structure TypedBid where
  Bid : Option OBid
  BidType : String
  BidVideo : Option ExtBidPrebidVideo
  deriving DecidableEq, Repr

/-- `adapters.BidderResponse`: the decoded output of one `MakeBids` call. -/
structure BidderResponse where
  Currency : String
  Bids : List TypedBid
  deriving DecidableEq, Repr

/-- `exchange.PBSOrtbBid` (bidder.go:50-55); `BidTargets` is set later and
omitted. -/
structure PBSOrtbBid where
  Bid : Option OBid
  BidType : String
  BidVideo : Option ExtBidPrebidVideo
  deriving DecidableEq, Repr

/-- The mutable state of one `RequestBid` run: the request's `Cur` slice
(which the runner overwrites in place), the seat-bid currency, the collected
bids and the collected errors.  Debug `HTTPCalls` capture is omitted. -/
structure RequestBidState where
  Cur : List String
  Currency : String
  Bids : List PBSOrtbBid
  errs : List BidderErr
  deriving DecidableEq, Repr

/-- Embeds the conversion-rate search loop of `BidderAdapter.RequestBid`
(bidder.go:147-154): walk `request.Cur`, remembering the most recent error
(`var err error` starts out nil, hence `Option`), and stop at the first
currency for which `GetRate` succeeds. -/
def tryConversionsAux (conversions : Conversions) (bidCur : String) (lastErr : Option ConvError) :
    List String → Sum (Option ConvError) (String × ℚ)
  | [] => .inl lastErr
  | c :: rest =>
    match conversions bidCur c with
    | .ok r => .inr (c, r)
    | .error e => tryConversionsAux conversions bidCur (some e) rest

/-- Embeds the per-decoded-response block of `BidderAdapter.RequestBid`
(bidder.go:135-171): default the response currency and `request.Cur` to USD,
search for a conversion rate, and either scale and keep every bid of the
response or drop them all and record the final conversion error. -/
def processBidResponse (conversions : Conversions) (bidAdjustment : ℚ)
    (st : RequestBidState) (bidResponse : Option BidderResponse) : RequestBidState :=
  match bidResponse with
  | none => st
  | some br =>
    let brCurrency := if br.Currency = "" then "USD" else br.Currency
    let newCur := if st.Cur = [] then ["USD"] else st.Cur
    match tryConversionsAux conversions brCurrency none newCur with
    | .inr (bidReqCur, conversionRate) =>
      { st with
        Cur := newCur
        Currency := bidReqCur
        Bids := st.Bids ++ br.Bids.map (fun tb =>
          { Bid := tb.Bid.map (fun b => { b with Price := b.Price * bidAdjustment * conversionRate })
            BidType := tb.BidType
            BidVideo := tb.BidVideo }) }
    | .inl e =>
      { st with Cur := newCur, errs := st.errs ++ (e.map BidderErr.conversion).toList }

/-- The outcome of one outgoing HTTP call followed by `MakeBids`: either the
call itself failed (`httpInfo.err`), or `MakeBids` produced an optional
decoded response plus its own errors. -/
abbrev CallOutcome := Except BidderErr (Option BidderResponse × List BidderErr)

/-- Embeds `BidderAdapter.RequestBid` (bidder.go:91-179).  `reqData` and
`makeRequestsErrs` are the two results of `MakeRequests`; `completions` is
the channel-drain order of the HTTP calls (scheduling made explicit).  When
`MakeRequests` produced nothing, no seat bid is returned and a
`FailedToRequestBids` error is synthesised iff there are no adapter errors. -/
def RequestBid (reqData : List RequestData) (makeRequestsErrs : List BidderErr)
    (completions : List CallOutcome) (conversions : Conversions)
    (bidAdjustment : ℚ) (requestCur : List String) :
    Option RequestBidState × List BidderErr :=
  if reqData.length = 0 then
    (none, if makeRequestsErrs.length = 0 then
      makeRequestsErrs ++ [.failedToRequestBids] else makeRequestsErrs)
  else
    let final := completions.foldl (fun st outcome =>
      match outcome with
      | .error e => { st with errs := st.errs ++ [e] }
      | .ok (br, moreErrs) =>
          processBidResponse conversions bidAdjustment
            { st with errs := st.errs ++ moreErrs } br)
      { Cur := requestCur, Currency := "USD", Bids := [], errs := makeRequestsErrs }
    (some final, final.errs)

/-- C7: with zero outgoing requests, `RequestBid` returns no seat bid; it
synthesises exactly one `FailedToRequestBids` error iff the adapter also
returned zero errors, and otherwise returns the adapter's errors unchanged. -/
theorem RequestBid_zero_requests (makeRequestsErrs : List BidderErr)
    (completions : List CallOutcome) (conversions : Conversions)
    (bidAdjustment : ℚ) (requestCur : List String) :
    (makeRequestsErrs = [] →
      RequestBid [] makeRequestsErrs completions conversions bidAdjustment requestCur
        = (none, [BidderErr.failedToRequestBids]))
    ∧ (makeRequestsErrs ≠ [] →
      RequestBid [] makeRequestsErrs completions conversions bidAdjustment requestCur
        = (none, makeRequestsErrs)) := by
  constructor
  · intro h
    subst h
    simp [RequestBid]
  · intro h
    simp [RequestBid, List.length_eq_zero, h]

/-- Closed instance of `RequestBid_zero_requests` at concrete inputs. -/
theorem RequestBid_zero_requests_witness :
    RequestBid [] [] [] (Rates_GetRate none) 1 []
      = (none, [BidderErr.failedToRequestBids])
    ∧ RequestBid [] [BidderErr.timeout] [] (Rates_GetRate none) 1 []
      = (none, [BidderErr.timeout]) :=
  ⟨(RequestBid_zero_requests [] [] (Rates_GetRate none) 1 []).1 rfl,
   (RequestBid_zero_requests [BidderErr.timeout] [] (Rates_GetRate none) 1 []).2 (by decide)⟩

/-! ## C2 — currency normalisation in `RequestBid` -/

/-- Last element of a list, in a shape convenient for induction. -/
def lastElem? {α : Type} : List α → Option α
  | [] => none
  | [a] => some a
  | _ :: b :: rest => lastElem? (b :: rest)

/-- Spec-side: the first currency of the allowed list for which a conversion
rate from `bidCur` exists, together with that rate. -/
def firstConversion (conversions : Conversions) (bidCur : String) :
    List String → Option (String × ℚ)
  | [] => none
  | c :: rest =>
    match conversions bidCur c with
    | .ok r => some (c, r)
    | .error _ => firstConversion conversions bidCur rest

theorem tryConversionsAux_of_firstConversion_some
    (conversions : Conversions) (bidCur : String) :
    ∀ (curs : List String) (lastErr : Option ConvError) (c : String) (r : ℚ),
      firstConversion conversions bidCur curs = some (c, r) →
      tryConversionsAux conversions bidCur lastErr curs = .inr (c, r) := by
  intro curs
  induction curs with
  | nil => intro lastErr c r h; simp [firstConversion] at h
  | cons hd tl ih =>
    intro lastErr c r h
    cases hres : conversions bidCur hd with
    | ok v =>
      simp only [firstConversion, hres, Option.some.injEq, Prod.mk.injEq] at h
      obtain ⟨rfl, rfl⟩ := h
      simp [tryConversionsAux, hres]
    | error e =>
      simp only [firstConversion, hres] at h
      simp only [tryConversionsAux, hres]
      exact ih (some e) c r h

theorem tryConversionsAux_of_firstConversion_none
    (conversions : Conversions) (bidCur : String) :
    ∀ (curs : List String) (lastErr : Option ConvError),
      firstConversion conversions bidCur curs = none → curs ≠ [] →
      ∃ cLast e, lastElem? curs = some cLast ∧
        conversions bidCur cLast = .error e ∧
        tryConversionsAux conversions bidCur lastErr curs = .inl (some e) := by
  intro curs
  induction curs with
  | nil => intro lastErr _ hne; exact absurd rfl hne
  | cons hd tl ih =>
    intro lastErr h _
    cases hres : conversions bidCur hd with
    | ok v => simp [firstConversion, hres] at h
    | error e =>
      simp only [firstConversion, hres] at h
      cases tl with
      | nil =>
        exact ⟨hd, e, rfl, hres, by simp [tryConversionsAux, hres]⟩
      | cons hd' tl' =>
        obtain ⟨cLast, e', h1, h2, h3⟩ := ih (some e) h (by simp)
        refine ⟨cLast, e', ?_, h2, ?_⟩
        · simpa [lastElem?] using h1
        · simp only [tryConversionsAux, hres]
          exact h3

/-- C2: for every decoded adapter bid response, `RequestBid`'s currency
normalisation treats an empty response currency as USD and an empty
`request.Cur` as `["USD"]`; it picks the first allowed currency for which a
conversion rate exists, scales every bid price of that response by
`bidAdjustment * rate` and records the chosen currency on the seat bid; and
when no allowed currency yields a rate it keeps none of the response's bids
and surfaces the last conversion error. -/
theorem processBidResponse_spec (conversions : Conversions) (bidAdjustment : ℚ)
    (st : RequestBidState) (br : BidderResponse) :
    (∀ c r,
      firstConversion conversions (if br.Currency = "" then "USD" else br.Currency)
        (if st.Cur = [] then ["USD"] else st.Cur) = some (c, r) →
      processBidResponse conversions bidAdjustment st (some br) =
        { Cur := if st.Cur = [] then ["USD"] else st.Cur
          Currency := c
          Bids := st.Bids ++ br.Bids.map (fun tb =>
            { Bid := tb.Bid.map (fun b => { b with Price := b.Price * bidAdjustment * r })
              BidType := tb.BidType
              BidVideo := tb.BidVideo })
          errs := st.errs })
    ∧ (firstConversion conversions (if br.Currency = "" then "USD" else br.Currency)
        (if st.Cur = [] then ["USD"] else st.Cur) = none →
      ∃ cLast e,
        lastElem? (if st.Cur = [] then ["USD"] else st.Cur) = some cLast ∧
        conversions (if br.Currency = "" then "USD" else br.Currency) cLast = .error e ∧
        processBidResponse conversions bidAdjustment st (some br) =
          { st with
              Cur := if st.Cur = [] then ["USD"] else st.Cur
              errs := st.errs ++ [BidderErr.conversion e] }) := by
  constructor
  · intro c r h
    have haux := tryConversionsAux_of_firstConversion_some conversions
      (if br.Currency = "" then "USD" else br.Currency)
      (if st.Cur = [] then ["USD"] else st.Cur) none c r h
    simp [processBidResponse, haux]
  · intro h
    have hne : (if st.Cur = [] then ["USD"] else st.Cur) ≠ [] := by
      by_cases hc : st.Cur = [] <;> simp [hc]
    obtain ⟨cLast, e, h1, h2, h3⟩ := tryConversionsAux_of_firstConversion_none conversions
      (if br.Currency = "" then "USD" else br.Currency)
      (if st.Cur = [] then ["USD"] else st.Cur) none h hne
    exact ⟨cLast, e, h1, h2, by simp [processBidResponse, h3]⟩

/-- A concrete rate table: EUR → USD at rate 2. -/
def demoRates : Option RatesMap := some [("EUR", [("USD", 2)])]

/-- A concrete typed bid used by the C2 witness. -/
def demoTypedBid : TypedBid :=
  { Bid := some { ID := "b1", ImpID := "imp1", Price := 3, CrID := "cr1",
                  Cat := [], AdM := "", NURL := "" }
    BidType := "banner", BidVideo := none }

/-- Closed instance of `processBidResponse_spec`: a EUR response is converted
into USD at rate 2 (price 3 becomes 6), and a JPY response with no JPY rate
is dropped with the `GetRate` not-found error surfaced. -/
theorem processBidResponse_spec_witness :
    processBidResponse (Rates_GetRate demoRates) 1
        { Cur := [], Currency := "USD", Bids := [], errs := [] }
        (some { Currency := "EUR", Bids := [demoTypedBid] })
      = { Cur := ["USD"], Currency := "USD"
          Bids := [{ Bid := some { ID := "b1", ImpID := "imp1", Price := 6, CrID := "cr1",
                                   Cat := [], AdM := "", NURL := "" }
                     BidType := "banner", BidVideo := none }]
          errs := [] }
    ∧ (∃ cLast e, lastElem? ["USD"] = some cLast ∧
        Rates_GetRate demoRates "JPY" cLast = .error e ∧
        processBidResponse (Rates_GetRate demoRates) 1
            { Cur := [], Currency := "USD", Bids := [], errs := [] }
            (some { Currency := "JPY", Bids := [demoTypedBid] })
          = { Cur := ["USD"], Currency := "USD", Bids := [],
              errs := [BidderErr.conversion e] }) := by
  constructor
  · rw [(processBidResponse_spec (Rates_GetRate demoRates) 1
      { Cur := [], Currency := "USD", Bids := [], errs := [] }
      { Currency := "EUR", Bids := [demoTypedBid] }).1 "USD" 2 (by decide)]
    simp [demoTypedBid]
    norm_num
  · exact (processBidResponse_spec (Rates_GetRate demoRates) 1
      { Cur := [], Currency := "USD", Bids := [], errs := [] }
      { Currency := "JPY", Bids := [demoTypedBid] }).2 (by decide)

/-! ## C8 theorems -/

/-- C8 counterexample: with VAST caching requested but bid caching off, the
auction context keeps the original deadline, so the spec's "whenever caching
is requested" fails at deadline 100 and cache time 10. -/
theorem claimC8_counterexample : ¬ claimC8 (some 100) 10 false true := by
  intro h
  have h2 := h 100 rfl (Or.inr rfl)
  have hfst : holdAuctionContexts (some 100) 10 false true = (some 100, some 100) := rfl
  rw [hfst] at h2
  have h3 : (100 : ℤ) = 100 - 10 := by simpa using congrArg Prod.fst h2
  omega

/-- C8 amended: only *bid* caching shortens the bidder-dispatch deadline by
the cache time; the response is always built under the original context, and
with bid caching off or no deadline present the auction context equals the
original context. -/
theorem holdAuctionContexts_spec (deadline : Option ℤ) (cacheTime : ℤ) (bids vast : Bool) :
    (∀ d : ℤ, deadline = some d → bids = true →
      holdAuctionContexts deadline cacheTime bids vast = (some (d - cacheTime), some d))
    ∧ (bids = false →
      holdAuctionContexts deadline cacheTime bids vast = (deadline, deadline))
    ∧ (deadline = none →
      holdAuctionContexts deadline cacheTime bids vast = (none, none)) := by
  refine ⟨?_, ?_, ?_⟩
  · intro d hd hb
    subst hd; subst hb
    simp [holdAuctionContexts, makeAuctionContext]
  · intro hb
    subst hb
    simp [holdAuctionContexts, makeAuctionContext]
  · intro hd
    subst hd
    cases bids <;> simp [holdAuctionContexts, makeAuctionContext]

/-- Closed instance of `holdAuctionContexts_spec`. -/
theorem holdAuctionContexts_spec_witness :
    holdAuctionContexts (some 100) 10 true true = (some 90, some 100) := by
  rw [(holdAuctionContexts_spec (some 100) 10 true true).1 100 rfl rfl]
  decide

/-! ## Bid validator (`src/unnamed/part_009`) — C3, C10 -/

/-- The error values of `validateCurrency`: either the parse failure from
`currency.ParseISO`, or the "Bid Currency is not allowed" error carrying the
normalised unit and the allowed list. -/
inductive CurrencyError where
  | parseFailed (s : String)
  | notAllowed (cur : String) (allowed : List String)
  deriving DecidableEq, Repr

/-- Embeds `validateCurrency` (part_009:66-99): default an empty bid currency
to USD, parse it as an ISO code, default an empty allowed list to `["USD"]`,
and accept iff some allowed entry upper-cases to the normalised unit. -/
def validateCurrency (requestAllowedCurrencies : List String) (bidCurrency : String) :
    Option CurrencyError :=
  match parseISO (if bidCurrency = "" then "USD" else bidCurrency) with
  | none => some (.parseFailed (if bidCurrency = "" then "USD" else bidCurrency))
  | some currencyUnit =>
    if (if requestAllowedCurrencies = [] then ["USD"] else requestAllowedCurrencies).any
        (fun a => toUpperStr a = currencyUnit) then
      none
    else
      some (.notAllowed currencyUnit
        (if requestAllowedCurrencies = [] then ["USD"] else requestAllowedCurrencies))

/-- The per-bid error values of `validateBid`. -/
inductive BidValidationError where
  | emptyBid
  | missingID
  | missingImpID (id : String)
  | nonPositivePrice (id : String)
  | missingCrID (id : String)
  | badCurrency (e : CurrencyError)
  deriving DecidableEq, Repr

/-- Embeds `validateBid` (part_009:102-121). -/
def validateBid (bid : PBSOrtbBid) : Bool × Option BidValidationError :=
  match bid.Bid with
  | none => (false, some .emptyBid)
  | some b =>
    if b.ID = "" then (false, some .missingID)
    else if b.ImpID = "" then (false, some (.missingImpID b.ID))
    else if b.Price ≤ 0 then (false, some (.nonPositivePrice b.ID))
    else if b.CrID = "" then (false, some (.missingCrID b.ID))
    else (true, none)

/-- `exchange.PBSOrtbSeatBid` restricted to the fields the validator and the
response builder read. -/
structure PBSOrtbSeatBid where
  Bids : List PBSOrtbBid
  Currency : String
  deriving DecidableEq, Repr

/-- The loop body of `removeInvalidBids`: keep a valid bid, otherwise record
its error. -/
def validateStep (acc : List PBSOrtbBid × List BidValidationError) (bid : PBSOrtbBid) :
    List PBSOrtbBid × List BidValidationError :=
  match validateBid bid with
  | (true, _) => (acc.1 ++ [bid], acc.2)
  | (false, berr) => (acc.1, acc.2 ++ berr.toList)

/-- Embeds `removeInvalidBids` (part_009:40-63): exit early on a nil or empty
seat, fail the whole seat on a currency-validation error, otherwise keep
exactly the bids passing `validateBid` and collect one error per dropped
bid.  Returns the updated seat (the Go code mutates it through the pointer)
plus the validation errors. -/
def removeInvalidBids (requestCur : List String) (seatBid : Option PBSOrtbSeatBid) :
    Option PBSOrtbSeatBid × List BidValidationError :=
  match seatBid with
  | none => (none, [])
  | some sb =>
    if sb.Bids.length = 0 then (some sb, [])
    else
      match validateCurrency requestCur sb.Currency with
      | some cerr => (some { sb with Bids := [] }, [.badCurrency cerr])
      | none =>
        let checked := sb.Bids.foldl validateStep
          (([] : List PBSOrtbBid), ([] : List BidValidationError))
        (some { sb with Bids := checked.1 }, checked.2)

theorem validateBid_true_iff (bid : PBSOrtbBid) :
    (validateBid bid).1 = true ↔
      ∃ ob, bid.Bid = some ob ∧ ob.ID ≠ "" ∧ ob.ImpID ≠ "" ∧ 0 < ob.Price ∧ ob.CrID ≠ "" := by
  cases hb : bid.Bid with
  | none => simp [validateBid, hb]
  | some b =>
    simp only [validateBid, hb]
    split_ifs with h1 h2 h3 h4 <;> simp_all [not_le]

theorem validateBid_false_some (bid : PBSOrtbBid) (berr : Option BidValidationError)
    (h : validateBid bid = (false, berr)) : ∃ e, berr = some e := by
  cases hb : bid.Bid with
  | none =>
    simp only [validateBid, hb, Prod.mk.injEq] at h
    exact ⟨_, h.2.symm⟩
  | some b =>
    simp only [validateBid, hb] at h
    split_ifs at h <;> simp_all
    all_goals exact ⟨_, h.symm⟩

/-- The validation fold keeps exactly the bids passing `validateBid`. -/
theorem validateFold_fst (bids : List PBSOrtbBid) :
    ∀ acc : List PBSOrtbBid × List BidValidationError,
      (bids.foldl validateStep acc).1
        = acc.1 ++ bids.filter (fun b => (validateBid b).1) := by
  induction bids with
  | nil => intro acc; simp
  | cons hd tl ih =>
    intro acc
    rcases hv : validateBid hd with ⟨ok, berr⟩
    have hfst : (validateBid hd).1 = ok := by rw [hv]
    cases ok
    · rw [List.foldl_cons, List.filter_cons]
      rw [show validateStep acc hd = (acc.1, acc.2 ++ berr.toList) by
        simp [validateStep, hv]]
      rw [ih]
      simp [hfst]
    · rw [List.foldl_cons, List.filter_cons]
      rw [show validateStep acc hd = (acc.1 ++ [hd], acc.2) by
        simp [validateStep, hv]]
      rw [ih]
      simp [hfst]

/-- The validation fold produces exactly one error per dropped bid. -/
theorem validateFold_length (bids : List PBSOrtbBid) :
    ∀ acc : List PBSOrtbBid × List BidValidationError,
      (bids.foldl validateStep acc).1.length + (bids.foldl validateStep acc).2.length
        = acc.1.length + acc.2.length + bids.length := by
  induction bids with
  | nil => intro acc; simp
  | cons hd tl ih =>
    intro acc
    rcases hv : validateBid hd with ⟨ok, berr⟩
    cases ok
    · obtain ⟨e, he⟩ := validateBid_false_some hd berr hv
      subst he
      rw [List.foldl_cons,
        show validateStep acc hd = (acc.1, acc.2 ++ [e]) by simp [validateStep, hv],
        ih]
      simp
      omega
    · rw [List.foldl_cons,
        show validateStep acc hd = (acc.1 ++ [hd], acc.2) by simp [validateStep, hv],
        ih]
      simp
      omega

theorem removeInvalidBids_empty_eq (requestCur : List String) (sb : PBSOrtbSeatBid)
    (hlen : sb.Bids.length = 0) :
    removeInvalidBids requestCur (some sb) = (some sb, []) := by
  simp [removeInvalidBids, hlen]

theorem removeInvalidBids_badCurrency_eq (requestCur : List String) (sb : PBSOrtbSeatBid)
    (cerr : CurrencyError) (hlen : ¬ sb.Bids.length = 0)
    (hc : validateCurrency requestCur sb.Currency = some cerr) :
    removeInvalidBids requestCur (some sb)
      = (some { sb with Bids := [] }, [.badCurrency cerr]) := by
  simp [removeInvalidBids, hlen, hc]

theorem removeInvalidBids_ok_eq (requestCur : List String) (sb : PBSOrtbSeatBid)
    (hlen : ¬ sb.Bids.length = 0)
    (hc : validateCurrency requestCur sb.Currency = none) :
    removeInvalidBids requestCur (some sb)
      = (some { sb with Bids := (sb.Bids.foldl validateStep ([], [])).1 },
         (sb.Bids.foldl validateStep ([], [])).2) := by
  simp [removeInvalidBids, hlen, hc]

/-- C3 amended: every bid surviving `removeInvalidBids` has a non-empty id,
non-empty impression id, positive price and non-empty creative id; when the
seat currency validates, each dropped bid surfaces exactly one error; and on
a seat that actually carries bids, a currency-validation failure empties the
whole seat and returns that single error. -/
theorem removeInvalidBids_spec (requestCur : List String) (sb : PBSOrtbSeatBid) :
    (∀ outSb, (removeInvalidBids requestCur (some sb)).1 = some outSb →
      ∀ bid ∈ outSb.Bids,
        ∃ ob, bid.Bid = some ob ∧ ob.ID ≠ "" ∧ ob.ImpID ≠ "" ∧ 0 < ob.Price ∧ ob.CrID ≠ "")
    ∧ (validateCurrency requestCur sb.Currency = none →
      ∀ outSb, (removeInvalidBids requestCur (some sb)).1 = some outSb →
        outSb.Bids.length + (removeInvalidBids requestCur (some sb)).2.length
          = sb.Bids.length)
    ∧ (sb.Bids ≠ [] → ∀ cerr, validateCurrency requestCur sb.Currency = some cerr →
      removeInvalidBids requestCur (some sb)
        = (some { sb with Bids := [] }, [.badCurrency cerr])) := by
  refine ⟨?_, ?_, ?_⟩
  · intro outSb hout bid hmem
    by_cases hlen : sb.Bids.length = 0
    · rw [removeInvalidBids_empty_eq requestCur sb hlen] at hout
      obtain rfl : sb = outSb := Option.some.inj hout
      rw [List.length_eq_zero] at hlen
      rw [hlen] at hmem
      simp at hmem
    · cases hc : validateCurrency requestCur sb.Currency with
      | some cerr =>
        rw [removeInvalidBids_badCurrency_eq requestCur sb cerr hlen hc] at hout
        obtain rfl : _ = outSb := Option.some.inj hout
        simp at hmem
      | none =>
        rw [removeInvalidBids_ok_eq requestCur sb hlen hc] at hout
        obtain rfl : _ = outSb := Option.some.inj hout
        simp only [validateFold_fst sb.Bids ([], []), List.nil_append] at hmem
        rw [List.mem_filter] at hmem
        exact (validateBid_true_iff bid).1 hmem.2
  · intro hc outSb hout
    by_cases hlen : sb.Bids.length = 0
    · rw [removeInvalidBids_empty_eq requestCur sb hlen] at hout ⊢
      obtain rfl : sb = outSb := Option.some.inj hout
      simpa using hlen.symm
    · rw [removeInvalidBids_ok_eq requestCur sb hlen hc] at hout ⊢
      obtain rfl : _ = outSb := Option.some.inj hout
      have hl := validateFold_length sb.Bids ([], [])
      simpa using hl
  · intro hne cerr hc
    have hlen : ¬ sb.Bids.length = 0 := by
      simpa [List.length_eq_zero] using hne
    exact removeInvalidBids_badCurrency_eq requestCur sb cerr hlen hc

/-- Closed instance of `removeInvalidBids_spec`: a seat with one valid bid,
one invalid bid (price 0) and currency USD keeps exactly the valid bid with
one error; the same seat with currency "QQQ" is emptied with one error. -/
theorem removeInvalidBids_spec_witness :
    (∀ outSb,
      (removeInvalidBids []
        (some { Bids := [{ Bid := some { ID := "b1", ImpID := "imp1", Price := 2, CrID := "cr1",
                                         Cat := [], AdM := "", NURL := "" },
                           BidType := "banner", BidVideo := none }],
                Currency := "USD" })).1 = some outSb →
      ∀ bid ∈ outSb.Bids,
        ∃ ob, bid.Bid = some ob ∧ ob.ID ≠ "" ∧ ob.ImpID ≠ "" ∧ 0 < ob.Price ∧ ob.CrID ≠ "")
    ∧ removeInvalidBids ["USD"]
        (some { Bids := [{ Bid := none, BidType := "banner", BidVideo := none }],
                Currency := "QQQ" })
      = (some { Bids := [], Currency := "QQQ" },
         [.badCurrency (.parseFailed "QQQ")]) := by
  constructor
  · exact (removeInvalidBids_spec []
      { Bids := [{ Bid := some { ID := "b1", ImpID := "imp1", Price := 2, CrID := "cr1",
                                 Cat := [], AdM := "", NURL := "" },
                   BidType := "banner", BidVideo := none }],
        Currency := "USD" }).1
  · exact (removeInvalidBids_spec ["USD"]
      { Bids := [{ Bid := none, BidType := "banner", BidVideo := none }],
        Currency := "QQQ" }).2.2 (by decide) (.parseFailed "QQQ") (by decide)

/-- The C3 sentence as stated: an unrecognised or disallowed seat currency
always yields exactly one error. -/
def claimC3currency (requestCur : List String) (sb : PBSOrtbSeatBid) : Prop :=
  (validateCurrency requestCur sb.Currency).isSome →
    (removeInvalidBids requestCur (some sb)).2.length = 1

/-- C3 counterexample: a seat with an unparseable currency but zero bids hits
the validator's early exit, so no error at all is returned. -/
theorem claimC3_counterexample :
    ¬ claimC3currency ["USD"] { Bids := [], Currency := "QQQ" } := by
  intro h
  have := h (by decide)
  simp [removeInvalidBids] at this

/-- C10: `validateCurrency` accepts iff the (USD-defaulted) bid currency
parses as an ISO code whose normalised unit appears among the upper-cased
entries of the (USD-defaulted) allowed list — in particular the match is
case-insensitive on the allowed side, so an allowed entry "usd" accepts a
USD seat. -/
theorem validateCurrency_spec (allowed : List String) (cur : String) :
    (validateCurrency allowed cur = none ↔
      ∃ u, parseISO (if cur = "" then "USD" else cur) = some u ∧
        u ∈ (if allowed = [] then ["USD"] else allowed).map toUpperStr)
    ∧ validateCurrency ["usd"] "USD" = none := by
  constructor
  · cases hp : parseISO (if cur = "" then "USD" else cur) with
    | none => simp [validateCurrency, hp]
    | some u =>
      have hval : validateCurrency allowed cur =
          (if ((if allowed = [] then ["USD"] else allowed).any
              (fun a => toUpperStr a = u)) = true
           then none
           else some (.notAllowed u (if allowed = [] then ["USD"] else allowed))) := by
        simp only [validateCurrency, hp]
      by_cases ha : ((if allowed = [] then ["USD"] else allowed).any
          (fun a => toUpperStr a = u)) = true
      · rw [hval, if_pos ha]
        constructor
        · intro _
          refine ⟨u, rfl, ?_⟩
          rw [List.any_eq_true] at ha
          obtain ⟨a, hmem, hup⟩ := ha
          rw [List.mem_map]
          exact ⟨a, hmem, by simpa using hup⟩
        · intro _; rfl
      · rw [hval, if_neg ha]
        constructor
        · intro hcontra; exact absurd hcontra (by simp)
        · rintro ⟨u', hu', hmem⟩
          rw [Option.some.injEq] at hu'
          subst hu'
          rw [List.mem_map] at hmem
          obtain ⟨a, hmem, hup⟩ := hmem
          exact absurd (List.any_eq_true.2 ⟨a, hmem, by simpa using hup⟩) ha
  · decide

/-- Closed instance of `validateCurrency_spec`: a lower-case allowed entry
accepts the USD seat. -/
theorem validateCurrency_spec_witness : validateCurrency ["usd"] "USD" = none :=
  (validateCurrency_spec ["usd"] "USD").2

/-! ## Auction builder (`src/unnamed/part_007` `newAuction`) — C1 -/

/-- `adapters.Bid` restricted to what `newAuction` reads (the inner
`openrtb.Bid` pointer is assumed non-nil, as the code dereferences it
unconditionally). -/
structure AdaptersBid where
  Bid : OBid
  BidType : String
  deriving DecidableEq, Repr

/-- `adapters.SeatBid` restricted to what `newAuction` reads. -/
structure AdaptersSeatBid where
  Bids : List AdaptersBid
  deriving DecidableEq, Repr

/-- The two winner maps built by `newAuction`. -/
structure AuctionMaps where
  winningBids : List (String × AdaptersBid)
  winningBidsByBidder : List (String × List (String × AdaptersBid))
  deriving DecidableEq, Repr

/-- The `winningBids` update of one `newAuction` iteration (part_007:21-25). -/
def updateWinningBids (m : List (String × AdaptersBid)) (bid : AdaptersBid) :
    List (String × AdaptersBid) :=
  match lookupA m bid.Bid.ImpID with
  | none => setAssoc bid.Bid.ImpID bid m
  | some wbid =>
    if bid.Bid.Price > wbid.Bid.Price then setAssoc bid.Bid.ImpID bid m else m

/-- The `winningBidsByBidder` update of one `newAuction` iteration
(part_007:26-34). -/
def updateWinningBidsByBidder (m : List (String × List (String × AdaptersBid)))
    (bidderName : String) (bid : AdaptersBid) :
    List (String × List (String × AdaptersBid)) :=
  match lookupA m bid.Bid.ImpID with
  | some bidMap =>
    match lookupA bidMap bidderName with
    | none => setAssoc bid.Bid.ImpID (setAssoc bidderName bid bidMap) m
    | some bestSoFar =>
      if bid.Bid.Price > bestSoFar.Bid.Price then
        setAssoc bid.Bid.ImpID (setAssoc bidderName bid bidMap) m
      else m
  | none => setAssoc bid.Bid.ImpID [(bidderName, bid)] m

/-- One iteration of the bid loop of `newAuction` (part_007:20-35). -/
def processBid (bidderName : String) (st : AuctionMaps) (bid : AdaptersBid) : AuctionMaps :=
  { winningBids := updateWinningBids st.winningBids bid
    winningBidsByBidder := updateWinningBidsByBidder st.winningBidsByBidder bidderName bid }

/-- Embeds `newAuction` (part_007:14-43); the Go map's iteration order is
made explicit as a list, and a nil seat bid is skipped. -/
def newAuction (seatBids : List (String × Option AdaptersSeatBid)) : AuctionMaps :=
  seatBids.foldl (fun st p =>
    match p.2 with
    | none => st
    | some seatBid => seatBid.Bids.foldl (processBid p.1) st)
    { winningBids := [], winningBidsByBidder := [] }

/-- All `(bidder, bid)` pairs of the input, in processing order. -/
def allPairs : List (String × Option AdaptersSeatBid) → List (String × AdaptersBid)
  | [] => []
  | (_, none) :: rest => allPairs rest
  | (bidderName, some seatBid) :: rest =>
      seatBid.Bids.map (fun b => (bidderName, b)) ++ allPairs rest

/-- The bids on one impression, in processing order. -/
def impBids (seatBids : List (String × Option AdaptersSeatBid)) (imp : String) :
    List AdaptersBid :=
  ((allPairs seatBids).filter (fun p => p.2.Bid.ImpID = imp)).map Prod.snd

/-- Keep the incumbent unless the challenger's price strictly exceeds it. -/
def selOpt (acc : Option AdaptersBid) (b : AdaptersBid) : Option AdaptersBid :=
  match acc with
  | none => some b
  | some w => if b.Bid.Price > w.Bid.Price then some b else some w

/-- First maximum of a bid list under `selOpt`: on equal prices the earlier
bid is kept. -/
def firstMax (l : List AdaptersBid) : Option AdaptersBid := l.foldl selOpt none

/-- Nested lookup, the read `winnersByImpByBidder[imp][bidder]`. -/
def lookup2 (m : List (String × List (String × AdaptersBid))) (imp bidderName : String) :
    Option AdaptersBid :=
  match lookupA m imp with
  | none => none
  | some inner => lookupA inner bidderName

/-- Processing one pair of the flattened input. -/
def stepPair (st : AuctionMaps) (p : String × AdaptersBid) : AuctionMaps :=
  processBid p.1 st p.2

theorem newAuction_flat_general :
    ∀ (seatBids : List (String × Option AdaptersSeatBid)) (st : AuctionMaps),
      seatBids.foldl (fun st p =>
        match p.2 with
        | none => st
        | some seatBid => seatBid.Bids.foldl (processBid p.1) st) st
        = (allPairs seatBids).foldl stepPair st := by
  intro seatBids
  induction seatBids with
  | nil => intro st; simp [allPairs]
  | cons hd tl ih =>
    intro st
    obtain ⟨bidderName, opt⟩ := hd
    cases opt with
    | none => simpa [allPairs] using ih st
    | some seatBid =>
      rw [List.foldl_cons]
      simp only [allPairs, List.foldl_append]
      rw [ih]
      congr 1
      rw [List.foldl_map]
      rfl

/-- `newAuction` is the flat left fold of `stepPair` over all pairs. -/
theorem newAuction_eq_flat (seatBids : List (String × Option AdaptersSeatBid)) :
    newAuction seatBids
      = (allPairs seatBids).foldl stepPair { winningBids := [], winningBidsByBidder := [] } :=
  newAuction_flat_general seatBids _

theorem lookupA_updateWinningBids (m : List (String × AdaptersBid)) (bid : AdaptersBid)
    (imp : String) :
    lookupA (updateWinningBids m bid) imp =
      if bid.Bid.ImpID = imp then selOpt (lookupA m imp) bid else lookupA m imp := by
  by_cases h : bid.Bid.ImpID = imp
  · subst h
    cases hl : lookupA m bid.Bid.ImpID with
    | none => simp [updateWinningBids, hl, selOpt, lookupA_setAssoc_self]
    | some wbid =>
      by_cases hp : bid.Bid.Price > wbid.Bid.Price
      · simp [updateWinningBids, hl, selOpt, hp, lookupA_setAssoc_self]
      · simp [updateWinningBids, hl, selOpt, hp]
  · rw [if_neg h]
    cases hl : lookupA m bid.Bid.ImpID with
    | none => simp [updateWinningBids, hl, lookupA_setAssoc_ne _ _ h]
    | some wbid =>
      by_cases hp : bid.Bid.Price > wbid.Bid.Price
      · simp [updateWinningBids, hl, hp, lookupA_setAssoc_ne _ _ h]
      · simp [updateWinningBids, hl, hp]

theorem lookup2_updateWinningBidsByBidder (m : List (String × List (String × AdaptersBid)))
    (bidderName : String) (bid : AdaptersBid) (imp n : String) :
    lookup2 (updateWinningBidsByBidder m bidderName bid) imp n =
      if bidderName = n ∧ bid.Bid.ImpID = imp then selOpt (lookup2 m imp n) bid
      else lookup2 m imp n := by
  by_cases h1 : bid.Bid.ImpID = imp
  · subst h1
    by_cases h2 : bidderName = n
    · subst h2
      simp only [and_self, if_pos, true_and]
      cases ho : lookupA m bid.Bid.ImpID with
      | none =>
        simp [updateWinningBidsByBidder, ho, lookup2, lookupA_setAssoc_self, selOpt, lookupA]
      | some bidMap =>
        cases hi : lookupA bidMap bidderName with
        | none =>
          simp [updateWinningBidsByBidder, ho, hi, lookup2, lookupA_setAssoc_self, selOpt]
        | some best =>
          by_cases hp : bid.Bid.Price > best.Bid.Price
          · simp [updateWinningBidsByBidder, ho, hi, hp, lookup2, lookupA_setAssoc_self, selOpt]
          · simp [updateWinningBidsByBidder, ho, hi, hp, lookup2, selOpt]
    · rw [if_neg (by simp [h2])]
      cases ho : lookupA m bid.Bid.ImpID with
      | none =>
        simp [updateWinningBidsByBidder, ho, lookup2, lookupA_setAssoc_self, lookupA,
          if_neg h2]
      | some bidMap =>
        cases hi : lookupA bidMap bidderName with
        | none =>
          simp [updateWinningBidsByBidder, ho, hi, lookup2, lookupA_setAssoc_self,
            lookupA_setAssoc_ne _ _ h2]
        | some best =>
          by_cases hp : bid.Bid.Price > best.Bid.Price
          · simp [updateWinningBidsByBidder, ho, hi, hp, lookup2, lookupA_setAssoc_self,
              lookupA_setAssoc_ne _ _ h2]
          · simp [updateWinningBidsByBidder, ho, hi, hp, lookup2]
  · rw [if_neg (by simp [h1])]
    cases ho : lookupA m bid.Bid.ImpID with
    | none =>
      simp [updateWinningBidsByBidder, ho, lookup2, lookupA_setAssoc_ne _ _ h1]
    | some bidMap =>
      cases hi : lookupA bidMap bidderName with
      | none =>
        simp [updateWinningBidsByBidder, ho, hi, lookup2, lookupA_setAssoc_ne _ _ h1]
      | some best =>
        by_cases hp : bid.Bid.Price > best.Bid.Price
        · simp [updateWinningBidsByBidder, ho, hi, hp, lookup2, lookupA_setAssoc_ne _ _ h1]
        · simp [updateWinningBidsByBidder, ho, hi, hp, lookup2]

theorem winningBids_foldl (l : List (String × AdaptersBid)) :
    ∀ (st : AuctionMaps) (imp : String),
      lookupA ((l.foldl stepPair st).winningBids) imp
        = ((l.filter (fun p => p.2.Bid.ImpID = imp)).map Prod.snd).foldl selOpt
            (lookupA st.winningBids imp) := by
  induction l with
  | nil => intro st imp; simp
  | cons hd tl ih =>
    intro st imp
    rw [List.foldl_cons, ih]
    by_cases h : hd.2.Bid.ImpID = imp
    · rw [List.filter_cons_of_pos (by simpa using h), List.map_cons, List.foldl_cons]
      congr 1
      show lookupA (updateWinningBids st.winningBids hd.2) imp = _
      rw [lookupA_updateWinningBids, if_pos h]
    · rw [List.filter_cons_of_neg (by simpa using h)]
      congr 1
      show lookupA (updateWinningBids st.winningBids hd.2) imp = _
      rw [lookupA_updateWinningBids, if_neg h]

theorem winningBidsByBidder_foldl (l : List (String × AdaptersBid)) :
    ∀ (st : AuctionMaps) (imp n : String),
      lookup2 ((l.foldl stepPair st).winningBidsByBidder) imp n
        = ((l.filter (fun p => decide (p.1 = n) && decide (p.2.Bid.ImpID = imp))).map
            Prod.snd).foldl selOpt (lookup2 st.winningBidsByBidder imp n) := by
  induction l with
  | nil => intro st imp n; simp
  | cons hd tl ih =>
    intro st imp n
    rw [List.foldl_cons, ih]
    by_cases h : hd.1 = n ∧ hd.2.Bid.ImpID = imp
    · rw [List.filter_cons_of_pos (by simp [h.1, h.2]), List.map_cons, List.foldl_cons]
      congr 1
      show lookup2 (updateWinningBidsByBidder st.winningBidsByBidder hd.1 hd.2) imp n = _
      rw [lookup2_updateWinningBidsByBidder, if_pos ⟨h.1, h.2⟩]
    · rw [List.filter_cons_of_neg (by simpa using h)]
      congr 1
      show lookup2 (updateWinningBidsByBidder st.winningBidsByBidder hd.1 hd.2) imp n = _
      rw [lookup2_updateWinningBidsByBidder, if_neg h]

theorem firstMax_append_singleton (l : List AdaptersBid) (b : AdaptersBid) :
    firstMax (l ++ [b]) = selOpt (firstMax l) b := by
  simp [firstMax, List.foldl_append]

theorem firstMax_eq_none_iff (l : List AdaptersBid) : firstMax l = none ↔ l = [] := by
  induction l using List.reverseRecOn with
  | nil => simp [firstMax]
  | append_singleton l b _ =>
    rw [firstMax_append_singleton]
    cases firstMax l with
    | none => simp [selOpt]
    | some w =>
      by_cases hp : b.Bid.Price > w.Bid.Price <;> simp [selOpt, hp]

/-- Forward characterisation of `firstMax`: the result is an element of
maximal price, and every element strictly before it has strictly smaller
price (ties keep the incumbent). -/
theorem firstMax_spec (l : List AdaptersBid) :
    ∀ w, firstMax l = some w →
      ∃ i, l.get? i = some w ∧ (∀ x ∈ l, x.Bid.Price ≤ w.Bid.Price) ∧
        (∀ x ∈ l.take i, x.Bid.Price < w.Bid.Price) := by
  induction l using List.reverseRecOn with
  | nil => intro w h; simp [firstMax] at h
  | append_singleton l b ih =>
    intro w h
    rw [firstMax_append_singleton] at h
    cases hl : firstMax l with
    | none =>
      rw [hl] at h
      obtain rfl : l = [] := (firstMax_eq_none_iff l).1 hl
      obtain rfl : b = w := by simpa [selOpt] using h
      exact ⟨0, rfl, by simp, by simp⟩
    | some w0 =>
      rw [hl] at h
      obtain ⟨i0, hget, hmax, hstrict⟩ := ih w0 hl
      have hi0 : i0 < l.length := (List.get?_eq_some.1 hget).1
      by_cases hp : b.Bid.Price > w0.Bid.Price
      · obtain rfl : b = w := by simpa [selOpt, hp] using h
        refine ⟨l.length, ?_, ?_, ?_⟩
        · exact List.get?_concat_length l b
        · intro x hx
          rcases List.mem_append.1 hx with hx | hx
          · exact le_of_lt (lt_of_le_of_lt (hmax x hx) hp)
          · rw [List.mem_singleton] at hx
            subst hx
            exact le_refl _
        · intro x hx
          rw [List.take_left] at hx
          exact lt_of_le_of_lt (hmax x hx) hp
      · obtain rfl : w0 = w := by simpa [selOpt, hp] using h
        refine ⟨i0, ?_, ?_, ?_⟩
        · rw [List.get?_append hi0]
          exact hget
        · intro x hx
          rcases List.mem_append.1 hx with hx | hx
          · exact hmax x hx
          · rw [List.mem_singleton] at hx
            subst hx
            exact not_lt.1 hp
        · intro x hx
          rw [List.take_append_of_le_length (le_of_lt hi0)] at hx
          exact hstrict x hx

/-- Converse characterisation of `firstMax`. -/
theorem firstMax_of_index (l : List AdaptersBid) :
    ∀ (i : ℕ) (w : AdaptersBid), l.get? i = some w →
      (∀ x ∈ l, x.Bid.Price ≤ w.Bid.Price) →
      (∀ x ∈ l.take i, x.Bid.Price < w.Bid.Price) →
      firstMax l = some w := by
  induction l using List.reverseRecOn with
  | nil => intro i w h _ _; simp at h
  | append_singleton l b ih =>
    intro i w hget hmax hstrict
    rw [firstMax_append_singleton]
    by_cases hi : i < l.length
    · have hgetl : l.get? i = some w := by
        rw [List.get?_append hi] at hget
        exact hget
      have hml : firstMax l = some w := by
        refine ih i w hgetl ?_ ?_
        · intro x hx
          exact hmax x (List.mem_append.2 (Or.inl hx))
        · intro x hx
          refine hstrict x ?_
          rw [List.take_append_of_le_length (le_of_lt hi)]
          exact hx
      rw [hml]
      have hb : b.Bid.Price ≤ w.Bid.Price := hmax b (List.mem_append.2 (Or.inr (by simp)))
      simp [selOpt, not_lt.2 hb]
    · have hil : l.length ≤ i := not_lt.1 hi
      rw [List.get?_append_right hil] at hget
      have hi0 : i - l.length = 0 := by
        rcases Nat.lt_or_ge (i - l.length) 1 with h1 | h1
        · omega
        · rw [List.get?_eq_none.2 (by simpa using h1)] at hget
          simp at hget
      rw [hi0] at hget
      obtain rfl : b = w := by simpa using hget
      have hstrl : ∀ x ∈ l, x.Bid.Price < b.Bid.Price := by
        intro x hx
        refine hstrict x ?_
        have : i = l.length := by omega
        subst this
        rw [List.take_left]
        exact hx
      cases hl : firstMax l with
      | none => simp [selOpt]
      | some w0 =>
        obtain ⟨i0, hget0, _, _⟩ := firstMax_spec l w0 hl
        have hw0 : w0 ∈ l := List.get?_mem hget0
        simp [selOpt, hstrl w0 hw0]

/-- C1: whenever `newAuction`'s `winningBids` holds a winner `w` for an
impression, (i) `w` occurs among the bids on that impression, every bid on
the impression has price at most `w`'s, and every bid processed before `w`
has price strictly below `w`'s (so a tie keeps the earlier-processed
incumbent, and a replacement needs a strictly higher CPM); and (ii) some
bidder produced `w` and `winningBidsByBidder` stores `w` for that impression
under that bidder. -/
theorem newAuction_winners (seatBids : List (String × Option AdaptersSeatBid))
    (imp : String) (w : AdaptersBid)
    (h : lookupA (newAuction seatBids).winningBids imp = some w) :
    (∃ i, (impBids seatBids imp).get? i = some w
       ∧ (∀ x ∈ impBids seatBids imp, x.Bid.Price ≤ w.Bid.Price)
       ∧ (∀ x ∈ (impBids seatBids imp).take i, x.Bid.Price < w.Bid.Price))
    ∧ ∃ bidderName, (bidderName, w) ∈ allPairs seatBids
       ∧ lookup2 (newAuction seatBids).winningBidsByBidder imp bidderName = some w := by
  rw [newAuction_eq_flat, winningBids_foldl (allPairs seatBids) _ imp] at h
  have hfm : firstMax (impBids seatBids imp) = some w := by
    simpa [firstMax, impBids, lookupA] using h
  obtain ⟨i, hget, hmax, hstrict⟩ := firstMax_spec _ w hfm
  refine ⟨⟨i, hget, hmax, hstrict⟩, ?_⟩
  simp only [impBids] at hget hmax hstrict
  rw [List.get?_map, Option.map_eq_some'] at hget
  obtain ⟨p, hp, hsnd⟩ := hget
  obtain ⟨n, w'⟩ := p
  obtain rfl : w' = w := hsnd
  obtain ⟨hlt, hgeteq⟩ := List.get?_eq_some.1 hp
  refine ⟨n, List.mem_of_mem_filter (List.get?_mem hp), ?_⟩
  rw [newAuction_eq_flat, winningBidsByBidder_foldl (allPairs seatBids) _ imp n]
  have hsplit : (allPairs seatBids).filter
        (fun p => decide (p.1 = n) && decide (p.2.Bid.ImpID = imp))
      = ((allPairs seatBids).filter (fun p => p.2.Bid.ImpID = imp)).filter
          (fun p => p.1 = n) := (List.filter_filter _ _).symm
  have hdrop : ((allPairs seatBids).filter (fun p => p.2.Bid.ImpID = imp)).drop i
      = (n, w') :: ((allPairs seatBids).filter (fun p => p.2.Bid.ImpID = imp)).drop (i + 1) := by
    rw [List.drop_eq_get_cons hlt, hgeteq]
  have hdecomp : (allPairs seatBids).filter (fun p => p.2.Bid.ImpID = imp)
      = ((allPairs seatBids).filter (fun p => p.2.Bid.ImpID = imp)).take i
        ++ (n, w') :: ((allPairs seatBids).filter (fun p => p.2.Bid.ImpID = imp)).drop (i + 1) := by
    rw [← hdrop]
    exact (List.take_append_drop i _).symm
  have hfd : ((allPairs seatBids).filter (fun p => p.2.Bid.ImpID = imp)).filter
        (fun p => p.1 = n)
      = (((allPairs seatBids).filter (fun p => p.2.Bid.ImpID = imp)).take i).filter
          (fun p => p.1 = n)
        ++ (n, w') :: (((allPairs seatBids).filter
            (fun p => p.2.Bid.ImpID = imp)).drop (i + 1)).filter (fun p => p.1 = n) := by
    conv_lhs => rw [hdecomp]
    rw [List.filter_append, List.filter_cons_of_pos (by simp)]
  have hsub : firstMax ((((allPairs seatBids).filter (fun p => p.2.Bid.ImpID = imp)).filter
      (fun p => p.1 = n)).map Prod.snd) = some w' := by
    refine firstMax_of_index _
      (((((allPairs seatBids).filter (fun p => p.2.Bid.ImpID = imp)).take i).filter
        (fun p => p.1 = n)).map Prod.snd).length w' ?_ ?_ ?_
    · rw [hfd, List.map_append, List.map_cons,
        List.get?_append_right (le_refl _), Nat.sub_self]
      rfl
    · intro x hx
      obtain ⟨q, hqmem, rfl⟩ := List.mem_map.1 hx
      exact hmax q.2 (List.mem_map.2 ⟨q, List.mem_of_mem_filter hqmem, rfl⟩)
    · intro x hx
      rw [hfd, List.map_append, List.map_cons, List.take_left] at hx
      obtain ⟨q, hqmem, rfl⟩ := List.mem_map.1 hx
      refine hstrict q.2 ?_
      rw [← List.map_take]
      exact List.mem_map.2 ⟨q, List.mem_of_mem_filter hqmem, rfl⟩
  rw [hsplit]
  simpa [firstMax, lookup2, lookupA] using hsub

/-- Concrete seat bids for the C1 witness: bidder `a` bids 5 on `imp1`,
bidder `b` bids 7 then ties at 7 with another bid. -/
def demoSeatBids : List (String × Option AdaptersSeatBid) :=
  [("a", some { Bids := [{ Bid := { ID := "a1", ImpID := "imp1", Price := 5, CrID := "c1",
                                    Cat := [], AdM := "", NURL := "" }, BidType := "banner" }] }),
   ("b", some { Bids := [{ Bid := { ID := "b1", ImpID := "imp1", Price := 7, CrID := "c2",
                                    Cat := [], AdM := "", NURL := "" }, BidType := "banner" },
                         { Bid := { ID := "b2", ImpID := "imp1", Price := 7, CrID := "c3",
                                    Cat := [], AdM := "", NURL := "" }, BidType := "banner" }] })]

/-- The winner of `imp1` in `demoSeatBids`: bidder b's first 7-priced bid. -/
def demoWinner : AdaptersBid :=
  { Bid := { ID := "b1", ImpID := "imp1", Price := 7, CrID := "c2",
             Cat := [], AdM := "", NURL := "" }, BidType := "banner" }

/-- Closed instance of `newAuction_winners` on `demoSeatBids`. -/
theorem newAuction_winners_witness :
    lookupA (newAuction demoSeatBids).winningBids "imp1" = some demoWinner
    ∧ ((∃ i, (impBids demoSeatBids "imp1").get? i = some demoWinner
         ∧ (∀ x ∈ impBids demoSeatBids "imp1", x.Bid.Price ≤ demoWinner.Bid.Price)
         ∧ (∀ x ∈ (impBids demoSeatBids "imp1").take i,
              x.Bid.Price < demoWinner.Bid.Price))
       ∧ ∃ bidderName, (bidderName, demoWinner) ∈ allPairs demoSeatBids
          ∧ lookup2 (newAuction demoSeatBids).winningBidsByBidder "imp1" bidderName
              = some demoWinner) :=
  ⟨by decide, newAuction_winners demoSeatBids "imp1" demoWinner (by decide)⟩

/-! ## Response builder (`exchange.buildBidResponse`) — C6 -/

/-- An OpenRTB seat-bid entry of the response, reduced to seat name and
bids (`makeSeatBid` also sets group = 0 and marshals ext; both are opaque to
C6). -/
structure SeatBidOut where
  Seat : String
  Bids : List PBSOrtbBid
  deriving DecidableEq, Repr

/-- The response fields C6 concerns; `NBR` carries the OpenRTB no-bid-reason
code (`NoBidReasonCodeInvalidRequest` = 2). -/
structure BidResponseOut where
  ID : String
  NBR : Option Int
  SeatBid : List SeatBidOut
  deriving DecidableEq, Repr

/-- A read of the Go map `adapterBids[a]` (a missing key reads as a nil
pointer, which collapses with a stored nil). -/
def mapGet (adapterBids : List (String × Option PBSOrtbSeatBid)) (a : String) :
    Option PBSOrtbSeatBid :=
  match lookupA adapterBids a with
  | some (some sb) => some sb
  | _ => none

/-- Embeds `exchange.buildBidResponse` (exchange.go:293-322) restricted to
id, nbr and seat-bid assembly: nbr is set iff `liveAdapters` is empty, and
one seat entry is appended per live adapter whose seat bid is non-nil and
carries at least one bid. -/
def buildBidResponse (liveAdapters : List String)
    (adapterBids : List (String × Option PBSOrtbSeatBid)) (requestID : String) :
    BidResponseOut :=
  { ID := requestID
    NBR := if liveAdapters.length = 0 then some 2 else none
    SeatBid := liveAdapters.foldl (fun acc a =>
      match mapGet adapterBids a with
      | some sb => if 0 < sb.Bids.length then acc ++ [{ Seat := a, Bids := sb.Bids }] else acc
      | none => acc) [] }

/-- The total number of bids produced across all bidders. -/
def totalBidCount (adapterBids : List (String × Option PBSOrtbSeatBid)) : ℕ :=
  adapterBids.foldl (fun acc p =>
    acc + (match p.2 with | some sb => sb.Bids.length | none => 0)) 0

/-- The C6 sentence as stated: nbr = InvalidRequest exactly when no bidder
produced any bid. -/
def claimC6 (liveAdapters : List String)
    (adapterBids : List (String × Option PBSOrtbSeatBid)) (requestID : String) : Prop :=
  (buildBidResponse liveAdapters adapterBids requestID).NBR = some 2 ↔
    totalBidCount adapterBids = 0

/-- C6 counterexample: one live adapter that produced zero bids — no bidder
produced any bid, yet nbr stays unset. -/
theorem claimC6_counterexample :
    ¬ claimC6 ["appnexus"] [("appnexus", some { Bids := [], Currency := "USD" })] "r" := by
  unfold claimC6
  decide

theorem buildBidResponse_fold (adapterBids : List (String × Option PBSOrtbSeatBid)) :
    ∀ (liveAdapters : List String) (acc : List SeatBidOut),
      liveAdapters.foldl (fun acc a =>
        match mapGet adapterBids a with
        | some sb => if 0 < sb.Bids.length then acc ++ [{ Seat := a, Bids := sb.Bids }] else acc
        | none => acc) acc
      = acc ++ (liveAdapters.filter (fun a =>
          match mapGet adapterBids a with
          | some sb => decide (0 < sb.Bids.length)
          | none => false)).map (fun a =>
            { Seat := a, Bids := (mapGet adapterBids a).elim [] PBSOrtbSeatBid.Bids }) := by
  intro liveAdapters
  induction liveAdapters with
  | nil => intro acc; simp
  | cons hd tl ih =>
    intro acc
    rw [List.foldl_cons]
    cases hm : mapGet adapterBids hd with
    | none =>
      rw [List.filter_cons_of_neg (by simp [hm])]
      simpa [hm] using ih acc
    | some sb =>
      by_cases hb : 0 < sb.Bids.length
      · rw [List.filter_cons_of_pos (by simp [hm, hb]), List.map_cons]
        simp only [hm, if_pos hb]
        rw [ih]
        simp [hm]
      · rw [List.filter_cons_of_neg (by simp [hm, hb])]
        simp only [hm, if_neg hb]
        exact ih acc

/-- C6 amended: nbr = InvalidRequest exactly when there are no live adapters
(no eligible bidders were dispatched at all); the response id is the request
id; and seatbid carries one entry, named after the bidder, per live adapter
whose seat bid holds at least one bid. -/
theorem buildBidResponse_spec (liveAdapters : List String)
    (adapterBids : List (String × Option PBSOrtbSeatBid)) (requestID : String) :
    ((buildBidResponse liveAdapters adapterBids requestID).NBR = some 2 ↔ liveAdapters = [])
    ∧ (buildBidResponse liveAdapters adapterBids requestID).ID = requestID
    ∧ (buildBidResponse liveAdapters adapterBids requestID).SeatBid
        = (liveAdapters.filter (fun a =>
            match mapGet adapterBids a with
            | some sb => decide (0 < sb.Bids.length)
            | none => false)).map (fun a =>
              { Seat := a, Bids := (mapGet adapterBids a).elim [] PBSOrtbSeatBid.Bids }) := by
  refine ⟨?_, rfl, ?_⟩
  · by_cases h : liveAdapters = []
    · subst h
      simp [buildBidResponse]
    · rw [iff_false_intro h]
      simp [buildBidResponse, List.length_eq_zero, h]
  · show liveAdapters.foldl _ [] = _
    rw [buildBidResponse_fold adapterBids liveAdapters []]
    simp

/-- Closed instance of `buildBidResponse_spec` at a concrete input. -/
theorem buildBidResponse_spec_witness :
    (buildBidResponse [] [] "r").NBR = some 2 :=
  (buildBidResponse_spec [] [] "r").1.mpr rfl

/-! ## Ad-cert signer (`src/adcert/adcert.go` `CreateSignature`) — C5 -/

/-- `openrtb.App` restricted to the field the signer reads. -/
structure AppObj where
  Bundle : String
  deriving DecidableEq, Repr

/-- `openrtb.Site` restricted to the field the signer reads. -/
structure SiteObj where
  Domain : String
  deriving DecidableEq, Repr

/-- `openrtb.Device` restricted to the fields the signer reads. -/
structure DeviceObj where
  IP : String
  IPv6 : String
  IFA : String
  UA : String
  deriving DecidableEq, Repr

/-- `adcert.BidRequest`: the OpenRTB request plus the publisher certificate
version. -/
structure AdsCertBidRequest where
  ID : String
  App : Option AppObj
  Site : Option SiteObj
  Device : Option DeviceObj
  PublisherCertificateVersion : String
  deriving DecidableEq, Repr

/-- Lexicographic byte-order comparison of char lists (the order Go's
`sort.Strings` uses on these ASCII keys). -/
def charListLe : List Char → List Char → Bool
  | [], _ => true
  | _ :: _, [] => false
  | a :: as, b :: bs =>
    if a.toNat < b.toNat then true
    else if b.toNat < a.toNat then false
    else charListLe as bs

/-- Lexicographic byte-order comparison of strings. -/
def strLe (a b : String) : Bool := charListLe a.data b.data

/-- Insertion step of string sorting. -/
def insertSorted (s : String) : List String → List String
  | [] => [s]
  | t :: rest => if strLe s t then s :: t :: rest else t :: insertSorted s rest

/-- Models Go `sort.Strings` (the keys sorted are pairwise distinct, so any
correct sort produces the same list). -/
def sortStrings : List String → List String
  | [] => []
  | s :: rest => insertSorted s (sortStrings rest)

/-- Go map read `m[k]` for the string map of `CreateSignature` (every key
read is present, so the default is never used). -/
def lookupD (m : List (String × String)) (k : String) : String :=
  (lookupA m k).getD ""

/-- The key/value map `m` built by `CreateSignature` (adcert.go:32-45), with
the nil-guarded field extractions of lines 17-31 inlined. -/
def CreateSignature_msgMap (request : AdsCertBidRequest) : List (String × String) :=
  [("tid", request.ID),
   ("cert", "ads-cert." ++ request.PublisherCertificateVersion ++ ".txt"),
   ("domain", match request.Site with | some s => s.Domain | none => ""),
   ("bundle", match request.App with | some a => a.Bundle | none => ""),
   ("consent", ""),
   ("ft", "d"),
   ("ip", match request.Device with | some d => d.IP | none => ""),
   ("ipv6", match request.Device with | some d => d.IPv6 | none => ""),
   ("ifa", match request.Device with | some d => d.IFA | none => ""),
   ("ua", match request.Device with | some d => d.UA | none => ""),
   ("w", ""),
   ("h", "")]

/-- Embeds the message construction of `CreateSignature` (adcert.go:46-55):
collect the map's keys, sort them, and join `k=v` pairs with `&`. -/
def CreateSignature_msg (request : AdsCertBidRequest) : String :=
  let m := CreateSignature_msgMap request
  match sortStrings (m.map Prod.fst) with
  | [] => ""
  | k0 :: rest =>
    rest.foldl (fun msg k => msg ++ "&" ++ (k ++ "=" ++ lookupD m k))
      (k0 ++ "=" ++ lookupD m k0)

/-- Spec-side join of `k=v` pairs with `&`, in the order given. -/
def joinPairs : List (String × String) → String
  | [] => ""
  | (k, v) :: rest =>
    rest.foldl (fun msg p => msg ++ "&" ++ (p.1 ++ "=" ++ p.2)) (k ++ "=" ++ v)

/-- The canonical pair list per the spec's §4.1 table (amended to its actual
twelve keys), already in lexicographic key order, with `cert` =
`ads-cert.<pcv>.txt`, `ft` = `d`, and `consent`, `w`, `h` empty. -/
def canonicalPairs (request : AdsCertBidRequest) : List (String × String) :=
  [("bundle", match request.App with | some a => a.Bundle | none => ""),
   ("cert", "ads-cert." ++ request.PublisherCertificateVersion ++ ".txt"),
   ("consent", ""),
   ("domain", match request.Site with | some s => s.Domain | none => ""),
   ("ft", "d"),
   ("h", ""),
   ("ifa", match request.Device with | some d => d.IFA | none => ""),
   ("ip", match request.Device with | some d => d.IP | none => ""),
   ("ipv6", match request.Device with | some d => d.IPv6 | none => ""),
   ("tid", request.ID),
   ("ua", match request.Device with | some d => d.UA | none => ""),
   ("w", "")]

/-- The C5 sentence as stated: the canonical message consists of eleven
`k=v` pairs joined by `&` (eleven pairs have ten separators). -/
def claimC5 (request : AdsCertBidRequest) : Prop :=
  (CreateSignature_msg request).data.count '&' + 1 = 11

/-- C5 counterexample: the message always carries twelve pairs (eleven `&`
separators), not eleven — the §4.1 table has twelve keys. -/
theorem claimC5_counterexample :
    ¬ claimC5 { ID := "", App := none, Site := none, Device := none,
                PublisherCertificateVersion := "" } := by
  unfold claimC5
  decide

/-- C5 amended: for every request the canonical message is exactly the
twelve keys of the §4.1 table, always present (missing request fields become
empty strings), sorted lexicographically, joined as un-encoded `k=v` pairs
with `&`; `cert` is `ads-cert.<pcv>.txt`, `ft` is `d`, and `consent`, `w`,
`h` are empty. -/
theorem CreateSignature_msg_canonical (request : AdsCertBidRequest) :
    CreateSignature_msg request = joinPairs (canonicalPairs request)
    ∧ sortStrings ((CreateSignature_msgMap request).map Prod.fst)
        = (canonicalPairs request).map Prod.fst
    ∧ (canonicalPairs request).map Prod.fst
        = ["bundle", "cert", "consent", "domain", "ft", "h",
           "ifa", "ip", "ipv6", "tid", "ua", "w"]
    ∧ List.Sorted (fun a b : String => strLe a b = true)
        ((canonicalPairs request).map Prod.fst) :=
  ⟨rfl, rfl, rfl, by
    rw [show (canonicalPairs request).map Prod.fst
        = ["bundle", "cert", "consent", "domain", "ft", "h",
           "ifa", "ip", "ipv6", "tid", "ua", "w"] from rfl]
    decide⟩

/-! ## Category-duration de-duplication (`exchange.applyCategoryMapping`) — C4 -/

/-- A `{min, max, increment}` price-granularity range. -/
structure GranularityRange where
  min : ℚ
  max : ℚ
  increment : ℚ
  deriving DecidableEq, Repr

/-- `openrtb_ext.PriceGranularity`: decimal precision plus ordered ranges. -/
structure PriceGranularity where
  precision : ℕ
  ranges : List GranularityRange
  deriving DecidableEq, Repr

/-- Left-pad a digit string with zeros to width `n`. -/
def padZeros (n : ℕ) (s : String) : String :=
  if s.length < n then String.mk (List.replicate (n - s.length) '0') ++ s else s

/-- Fixed-point rendering of the non-negative rational `num / den` with
`prec` decimals, rounding to nearest (as `strconv.FormatFloat(x, 'f', prec,
64)` does on the exact values arising here).  Kept on raw integer arithmetic
so it evaluates by kernel reduction. -/
def formatPrecPair (prec : ℕ) (num : ℤ) (den : ℤ) : String :=
  let base : ℤ := 10 ^ prec
  let scaled : ℤ := (2 * num * base + den).ediv (2 * den)
  if prec = 0 then toString scaled
  else toString (scaled.ediv base) ++ "." ++ padZeros prec (toString (scaled.emod base))

/-- Modelled from the spec: `GetCpmStringValue` is not under src/ (only its
callers are).  Per §4.6, scan the granularity ranges in order and emit
`format(precision, floor(price / increment) × increment)` for the first
range whose `max ≥ price`; prices above the last range's `max` produce the
empty string.  `floor(cpm / increment) × increment` is computed as the raw
fraction `(k × increment.num) / increment.den` with
`k = ⌊cpm / increment⌋`, so no rational normalisation is needed (prices and
increments are positive). -/
def GetCpmStringValue (cpm : ℚ) (pg : PriceGranularity) : String :=
  match pg.ranges.find? (fun r => cpm ≤ r.max) with
  | some r =>
    let k : ℤ := (cpm.num * (r.increment.den : ℤ)).ediv (r.increment.num * (cpm.den : ℤ))
    formatPrecPair pg.precision (k * r.increment.num) (r.increment.den : ℤ)
  | none => ""

/-- `openrtb_ext.ExtIncludeBrandCategory` (fields read by
`applyCategoryMapping`); its Go zero value is `{0, ""}`. -/
structure ExtIncludeBrandCategory where
  PrimaryAdServer : ℤ
  Publisher : String
  deriving DecidableEq, Repr

/-- `openrtb_ext.ExtRequestTargeting` restricted to the fields
`applyCategoryMapping` reads. -/
structure ExtRequestTargeting where
  IncludeBrandCategory : ExtIncludeBrandCategory
  DurationRangeSec : List ℤ
  PriceGranularity : PriceGranularity
  deriving DecidableEq, Repr

/-- `openrtb_ext.ExtRequest` restricted to `Prebid.Targeting`. -/
structure ExtRequest where
  Targeting : Option ExtRequestTargeting
  deriving DecidableEq, Repr

/-- Embeds `getPrimaryAdServer` (exchange.go:469-478). -/
def getPrimaryAdServer (adServerId : ℤ) : Except String String :=
  if adServerId = 1 then .ok "freewheel"
  else if adServerId = 2 then .ok "dfp"
  else .error "Primary ad server not recognized"

/-- The `bidDedupe` record of `applyCategoryMapping` (exchange.go:328-332). -/
structure BidDedupe where
  bidderName : String
  bidIndex : ℕ
  bidID : String
  deriving DecidableEq, Repr

/-- Remove the element at index `i` — Go's
`append(bids[:i], bids[i+1:]...)` at the value level. -/
def removeIdx {α : Type} (l : List α) (i : ℕ) : List α :=
  l.take i ++ l.drop (i + 1)

/-- Insertion step of integer sorting. -/
def insertSortedInt (x : ℤ) : List ℤ → List ℤ
  | [] => [x]
  | y :: rest => if x ≤ y then x :: y :: rest else y :: insertSortedInt x rest

/-- Models Go `sort.Ints` on durations. -/
def sortInts : List ℤ → List ℤ
  | [] => []
  | x :: rest => insertSortedInt x (sortInts rest)

/-- Insertion step of index sorting. -/
def insertSortedNat (x : ℕ) : List ℕ → List ℕ
  | [] => [x]
  | y :: rest => if x ≤ y then x :: y :: rest else y :: insertSortedNat x rest

/-- Models Go `sort.Ints` on the removal-index list. -/
def sortNats : List ℕ → List ℕ
  | [] => []
  | x :: rest => insertSortedNat x (sortNats rest)

/-- The mutable state of one `applyCategoryMapping` run: the live seat map
(Go mutates seats through shared pointers), the `res` map bid-id →
category-duration, the `dedupe` map, the seats marked for removal, and the
number of coin flips drawn so far. -/
structure CatMapState where
  seats : List (String × List PBSOrtbBid)
  res : List (String × String)
  dedupe : List (String × BidDedupe)
  seatBidsToRemove : List String
  flipIdx : ℕ
  deriving Repr

/-- Embeds the per-bid body of `applyCategoryMapping`'s inner loop
(exchange.go:359-436).  `flips i = true` models the `rand.Intn(100) < 50`
draw (drop the incumbent, keep the new bid).  The accumulator carries the
per-seat `bidsToRemove` index list. -/
def processCatBid (fetch : String → String → String → Except String String)
    (primaryAdServer publisher : String) (pg : PriceGranularity)
    (durationRangeSec : List ℤ) (flips : ℕ → Bool) (bidderName : String)
    (acc : CatMapState × List ℕ) (bidInd : ℕ) : CatMapState × List ℕ :=
  let st := acc.1
  let bidsToRemove := acc.2
  match (lookupA st.seats bidderName).bind (fun bids => bids.get? bidInd) with
  | none => acc
  | some bid =>
    let duration : ℤ := match bid.BidVideo with | some v => v.Duration | none => 0
    let category0 : String :=
      match bid.BidVideo with | some v => v.PrimaryCategory | none => ""
    let catRes : Option String :=
      if category0 = "" then
        match (bid.Bid.map OBid.Cat).getD [] with
        | [c] =>
          match fetch primaryAdServer publisher c with
          | .ok cat => if cat = "" then none else some cat
          | .error _ => none
        | _ => none
      else some category0
    match catRes with
    | none => (st, bidsToRemove ++ [bidInd])
    | some category =>
      let pb := GetCpmStringValue ((bid.Bid.map OBid.Price).getD 0) pg
      let durRes : Option ℤ :=
        if 0 < durationRangeSec.length then
          let durationRange := sortInts durationRangeSec
          match lastElem? durationRange with
          | some lastD =>
            if duration > lastD then none
            else some (match durationRange.find? (fun dur => duration ≤ dur) with
              | some d => d
              | none => duration)
          | none => some duration
        else some duration
      match durRes with
      | none => (st, bidsToRemove ++ [bidInd])
      | some newDur =>
        let categoryDuration := pb ++ "_" ++ category ++ "_" ++ toString newDur ++ "s"
        let bidID := (bid.Bid.map OBid.ID).getD ""
        match lookupA st.dedupe categoryDuration with
        | some dupe =>
          if flips st.flipIdx then
            let stepped :=
              if dupe.bidderName = bidderName then
                ({ st with flipIdx := st.flipIdx + 1 }, bidsToRemove ++ [dupe.bidIndex])
              else
                let oldBids := (lookupA st.seats dupe.bidderName).getD []
                if oldBids.length = 1 then
                  ({ st with
                      seatBidsToRemove := st.seatBidsToRemove ++ [bidderName]
                      flipIdx := st.flipIdx + 1 }, bidsToRemove)
                else
                  ({ st with
                      seats := setAssoc dupe.bidderName
                        (removeIdx oldBids dupe.bidIndex) st.seats
                      flipIdx := st.flipIdx + 1 }, bidsToRemove)
            ({ stepped.1 with
                res := setAssoc bidID categoryDuration (eraseAssoc dupe.bidID stepped.1.res)
                dedupe := setAssoc categoryDuration
                  { bidderName := bidderName, bidIndex := bidInd, bidID := bidID }
                  stepped.1.dedupe },
             stepped.2)
          else
            ({ st with flipIdx := st.flipIdx + 1 }, bidsToRemove ++ [bidInd])
        | none =>
          ({ st with
              res := setAssoc bidID categoryDuration st.res
              dedupe := setAssoc categoryDuration
                { bidderName := bidderName, bidIndex := bidInd, bidID := bidID }
                st.dedupe },
           bidsToRemove)

/-- Embeds one iteration of `applyCategoryMapping`'s seat loop
(exchange.go:357-453), including the final per-seat pass that deletes marked
bids in descending index order or marks the whole seat for removal. -/
def processCatSeat (fetch : String → String → String → Except String String)
    (primaryAdServer publisher : String) (pg : PriceGranularity)
    (durationRangeSec : List ℤ) (flips : ℕ → Bool)
    (st : CatMapState) (bidderName : String) : CatMapState :=
  let bids0 := (lookupA st.seats bidderName).getD []
  let stepped := (List.range bids0.length).foldl
    (processCatBid fetch primaryAdServer publisher pg durationRangeSec flips bidderName)
    (st, [])
  let st1 := stepped.1
  let bidsToRemove := stepped.2
  if 0 < bidsToRemove.length then
    if bidsToRemove.length = ((lookupA st1.seats bidderName).getD []).length then
      { st1 with seatBidsToRemove := st1.seatBidsToRemove ++ [bidderName] }
    else
      let live := (lookupA st1.seats bidderName).getD []
      let newBids := (sortNats bidsToRemove).reverse.foldl removeIdx live
      { st1 with seats := setAssoc bidderName newBids st1.seats }
  else st1

/-- Embeds `applyCategoryMapping` (exchange.go:325-467).  The Go map's
iteration order over seats is made explicit by the input list; the seat bids
are taken non-nil (a nil seat would make the Go code panic here); `fetch` is
the category-fetcher collaborator; `flips` makes the `rand.Intn(100) < 50`
draws explicit.  Returns `(res, seat map — `none` models the nil map,
error)`. -/
def applyCategoryMapping (requestExt : ExtRequest)
    (seatBids : List (String × List PBSOrtbBid))
    (fetch : String → String → String → Except String String)
    (flips : ℕ → Bool) :
    List (String × String) × Option (List (String × List PBSOrtbBid)) × Option String :=
  match requestExt.Targeting with
  | none => ([], some seatBids, none)
  | some targeting =>
    if targeting.IncludeBrandCategory = { PrimaryAdServer := 0, Publisher := "" } then
      ([], some seatBids, none)
    else
      match getPrimaryAdServer targeting.IncludeBrandCategory.PrimaryAdServer with
      | .error e => ([], some seatBids, some e)
      | .ok primaryAdServer =>
        let final := (seatBids.map Prod.fst).foldl
          (processCatSeat fetch primaryAdServer targeting.IncludeBrandCategory.Publisher
            targeting.PriceGranularity targeting.DurationRangeSec flips)
          { seats := seatBids, res := [], dedupe := [], seatBidsToRemove := [], flipIdx := 0 }
        if 0 < final.seatBidsToRemove.length then
          if final.seatBidsToRemove.length = final.seats.length then
            (final.res, none, none)
          else
            (final.res,
             some (final.seatBidsToRemove.foldl (fun m s => eraseAssoc s m) final.seats),
             none)
        else (final.res, some final.seats, none)

/-- A one-range granularity: prices up to 20, increment 1, two decimals. -/
def catDemoGranularity : PriceGranularity :=
  { precision := 2, ranges := [{ min := 0, max := 20, increment := 1 }] }

/-- Incumbent video bid of seat `alpha` (price 5, category IAB-1, 30 s). -/
def catBidA : PBSOrtbBid :=
  { Bid := some { ID := "a1", ImpID := "imp1", Price := 5, CrID := "cr",
                  Cat := [], AdM := "", NURL := "" }
    BidType := "video", BidVideo := some { Duration := 30, PrimaryCategory := "IAB-1" } }

/-- Duplicate-key video bid of seat `beta` (same rounded price, category and
duration). -/
def catBidB : PBSOrtbBid :=
  { Bid := some { ID := "b1", ImpID := "imp1", Price := 5, CrID := "cr",
                  Cat := [], AdM := "", NURL := "" }
    BidType := "video", BidVideo := some { Duration := 30, PrimaryCategory := "IAB-1" } }

/-- Request ext with competitive exclusion on (freewheel, publisher `pub`). -/
def catDemoExt : ExtRequest :=
  { Targeting := some
      { IncludeBrandCategory := { PrimaryAdServer := 1, Publisher := "pub" }
        DurationRangeSec := []
        PriceGranularity := catDemoGranularity } }

/-- C4, evaluated at the failing input: seats `alpha` then `beta` each hold
one bid with the identical key `5.00_IAB-1_30s`; the coin says *drop the
incumbent* (`rand.Intn(100) < 50`).  Dropping the incumbent `a1` would empty
seat `alpha`, so per the claim seat `alpha` must be marked for removal and
`beta`'s bid installed — but the code marks `bidderName` (the *current*
seat, `beta`) instead of `dupe.bidderName`: the returned seat map keeps
`alpha` with the supposedly dropped incumbent and deletes `beta`, while
`res` records the supposedly installed `b1`. -/
theorem applyCategoryMapping_wrong_seat_removed :
    applyCategoryMapping catDemoExt [("alpha", [catBidA]), ("beta", [catBidB])]
      (fun _ _ _ => .error "unused") (fun _ => true)
      = ([("b1", "5.00_IAB-1_30s")], some [("alpha", [catBidA])], none) := by
  decide

end Prebid
